import Mathlib

/-!
Shallow embedding of the `env` package (Showmax/env, file `env.go`): a
reflective engine that binds process environment variables into a nested Go
struct. Go's runtime types are modelled by the inductive `Ty`, runtime values
by `Val`, and the engine's functions (`loadStruct`, `loadVar`,
`parseAndSetValue`, `parseAndSetSlice`, `parseAndSetMap`, `tokenizeSliceString`,
`unescapeSliceField`, `varsPrefixed`, `follow`, `textUnmarshaler`) are
translated one by one.  Mutation of the destination through `reflect` is
modelled by explicit state passing: each engine function returns the new value
of the location it was given.  `os.LookupEnv` calls are additionally logged
(third component of the result) so that claims about which lookups happen are
statable.
-/

namespace EnvModel

/-- Per-field metadata of a Go struct field: field name, exportedness
(`isExported`), the `env` struct tag (`Tag.Lookup "env"`, `none` when the tag
is absent), and the `Anonymous` (embedding) flag. -/
structure FieldMeta where
  fname : String
  exported : Bool
  tag : Option String
  anonymous : Bool
  deriving Repr, DecidableEq

/-- Go types as seen by the engine.  `base n` is an unnamed builtin scalar
type (identified by a code), `named id u` is a defined (named) type with
underlying type `u` — only named types can carry an `UnmarshalText` method.
`strct` lists the fields in declaration order. -/
inductive Ty : Type where
  | base : Nat → Ty
  | named : Nat → Ty → Ty
  | ptr : Ty → Ty
  | strct : List (FieldMeta × Ty) → Ty
  | slice : Ty → Ty
  | mapT : Ty → Ty → Ty
  deriving Repr

/-- `reflect.Kind` as far as the engine inspects it. -/
inductive TKind : Type where
  | ptrK | structK | sliceK | mapK | otherK
  deriving Repr, DecidableEq

/-- `reflect.Type.Kind()`: a named type has the kind of its underlying type. -/
def kindOf : Ty → TKind
  | .base _ => .otherK
  | .named _ u => kindOf u
  | .ptr _ => .ptrK
  | .strct _ => .structK
  | .slice _ => .sliceK
  | .mapT _ _ => .mapK

/-- `reflect.Type.Elem()` for pointer- and slice-kinded types (resolving
named types to their underlying type first). -/
def elemTy : Ty → Ty
  | .ptr t => t
  | .slice t => t
  | .named _ u => elemTy u
  | t => t

/-- `reflect.Type.Key()` of a map-kinded type. -/
def keyTy : Ty → Ty
  | .mapT k _ => k
  | .named _ u => keyTy u
  | t => t

/-- `reflect.Type.Elem()` of a map-kinded type. -/
def mapValTy : Ty → Ty
  | .mapT _ v => v
  | .named _ u => mapValTy u
  | t => t

/-- Field list of a struct-kinded type. -/
def structFields : Ty → List (FieldMeta × Ty)
  | .strct fs => fs
  | .named _ u => structFields u
  | _ => []

theorem sizeOf_elemTy_lt_of_ptr : ∀ t : Ty, kindOf t = .ptrK →
    sizeOf (elemTy t) < sizeOf t
  | .ptr u, _ => by simp [elemTy]
  | .named n u, h => by
    have hu : kindOf u = .ptrK := by simpa [kindOf] using h
    have := sizeOf_elemTy_lt_of_ptr u hu
    simp [elemTy]; omega

theorem sizeOf_elemTy_lt_of_slice : ∀ t : Ty, kindOf t = .sliceK →
    sizeOf (elemTy t) < sizeOf t
  | .slice u, _ => by simp [elemTy]
  | .named n u, h => by
    have hu : kindOf u = .sliceK := by simpa [kindOf] using h
    have := sizeOf_elemTy_lt_of_slice u hu
    simp [elemTy]; omega

theorem sizeOf_structFields_lt : ∀ t : Ty, kindOf t = .structK →
    sizeOf (structFields t) < sizeOf t
  | .strct fs, _ => by simp [structFields]
  | .named n u, h => by
    have hu : kindOf u = .structK := by simpa [kindOf] using h
    have := sizeOf_structFields_lt u hu
    simp [structFields]; omega
  | .base _, h => by simp [kindOf] at h
  | .ptr _, h => by simp [kindOf] at h
  | .slice _, h => by simp [kindOf] at h
  | .mapT _ _, h => by simp [kindOf] at h

/-- The type reached by `follow` (line 649–659): strip all pointer-kinded
levels (`rv.Kind() == reflect.Ptr` loops via `rv.Type().Elem()`; a named
non-pointer type is kept as-is, since `follow` stops there). -/
def stripPtr : Ty → Ty
  | .ptr t => stripPtr t
  | .named i u => if kindOf u = .ptrK then stripPtr u else .named i u
  | t => t

theorem sizeOf_stripPtr_le : ∀ t : Ty, sizeOf (stripPtr t) ≤ sizeOf t
  | .ptr t => by
    have := sizeOf_stripPtr_le t
    simp [stripPtr]; omega
  | .named i u => by
    by_cases h : kindOf u = .ptrK
    · have := sizeOf_stripPtr_le u
      simp [stripPtr, h]; omega
    · simp [stripPtr, h]
  | .base b => le_refl _
  | .strct fs => le_refl _
  | .slice t => le_refl _
  | .mapT k v => le_refl _

theorem kindOf_stripPtr_ne_ptr : ∀ t : Ty, kindOf (stripPtr t) ≠ .ptrK
  | .ptr t => kindOf_stripPtr_ne_ptr t
  | .named i u => by
    by_cases h : kindOf u = .ptrK
    · simpa [stripPtr, h] using kindOf_stripPtr_ne_ptr u
    · simpa [stripPtr, h, kindOf] using h
  | .base b => by simp [stripPtr, kindOf]
  | .strct fs => by simp [stripPtr, kindOf]
  | .slice t => by simp [stripPtr, kindOf]
  | .mapT k v => by simp [stripPtr, kindOf]

/-- Go runtime values, as much of them as the engine distinguishes.
`prim s` is the (opaque) payload of a base/named scalar value — the engine
only ever moves these around whole.  `nilp` is a nil pointer, `ptrv` a
non-nil pointer to its pointee's value, `strv` a struct value (field values
in declaration order), `slv` a slice, `mapv` a map as an entry list. -/
inductive Val : Type where
  | prim : String → Val
  | nilp : Val
  | ptrv : Val → Val
  | strv : List Val → Val
  | slv : List Val → Val
  | mapv : List (Val × Val) → Val
  deriving Repr

mutual

/-- Structural equality of values; this is the equality Go's map
`SetMapIndex` uses for (comparable) keys. -/
def valBeq : Val → Val → Bool
  | .prim a, .prim b => a == b
  | .nilp, .nilp => true
  | .ptrv a, .ptrv b => valBeq a b
  | .strv as, .strv bs => valListBeq as bs
  | .slv as, .slv bs => valListBeq as bs
  | .mapv as, .mapv bs => entListBeq as bs
  | _, _ => false

/-- Pointwise `valBeq` on lists of values. -/
def valListBeq : List Val → List Val → Bool
  | [], [] => true
  | a :: as, b :: bs => valBeq a b && valListBeq as bs
  | _, _ => false

/-- Pointwise `valBeq` on entry lists. -/
def entListBeq : List (Val × Val) → List (Val × Val) → Bool
  | [], [] => true
  | (ka, va) :: as, (kb, vb) :: bs =>
      valBeq ka kb && valBeq va vb && entListBeq as bs
  | _, _ => false

end

mutual

/-- The zero value of a type (`reflect.New(t).Elem()`). -/
def zeroVal : Ty → Val
  | .base _ => .prim ""
  | .named _ u => zeroVal u
  | .ptr _ => .nilp
  | .strct fs => .strv (zeroFields fs)
  | .slice _ => .slv []
  | .mapT _ _ => .mapv []

/-- Zero values of a field list. -/
def zeroFields : List (FieldMeta × Ty) → List Val
  | [] => []
  | f :: rest => zeroVal f.2 :: zeroFields rest

end

/-- The value at the location `follow` returns, given the value currently
stored at a location of type `t`: existing pointers are traversed, nil
pointers are materialized to the zero value of their element type and then
traversed further (lines 649–659). -/
def followLeafVal : Ty → Val → Val
  | .ptr t, .ptrv v' => followLeafVal t v'
  | .ptr t, _ => followLeafVal t (zeroVal t)
  | .named _ u, v => if kindOf u = .ptrK then followLeafVal u v else v
  | _, v => v

/-- After `follow` has run and the leaf has been (possibly) overwritten, the
value stored back at the original location: one non-nil pointer per
pointer-kinded level around the leaf value. -/
def rebuildPtrs : Ty → Val → Val
  | .ptr t, leaf => .ptrv (rebuildPtrs t leaf)
  | .named _ u, leaf => if kindOf u = .ptrK then rebuildPtrs u leaf else leaf
  | _, leaf => leaf

/-! ## Errors

Errors are modelled structurally, one constructor per distinct `errors.New` /
`fmt.Errorf` site of the engine; `%w`-wrapping is a constructor argument. -/

/-- The engine's errors. `custom` stands for an error produced by a
caller-registered parser or an `UnmarshalText` implementation. -/
inductive Err : Type where
  | invalidDst
  | unexported (fieldName : String)
  | fieldErr (name : String) (e : Err)
  | varMissing
  | cannotParseMap (t : Ty) (e : Err)
  | cannotParseAs (s : String) (t : Ty) (e : Err)
  | unsupported (t : Ty)
  | emptyField
  | nulByte
  | unbalancedQuotes
  | trailingEscape
  | item (i : Nat) (e : Err)
  | mapKeyErr (s : String) (t : Ty) (e : Err)
  | mapValErr (s : String) (t : Ty) (e : Err)
  | custom (msg : String)
  deriving Repr

/-! ## List tokenizer (`tokenizeSliceString`, lines 517–553) -/

/-- Scanner state of `tokenizeSliceString`: the two boolean flags, the
current `strings.Builder` content, and the fields split off so far. -/
structure TokSt where
  q : Bool
  esc : Bool
  sb : String
  fields : List String
  deriving Repr

/-- One iteration of the rune loop of `tokenizeSliceString`. -/
def tokStep (st : TokSt) (r : Char) : Except Err TokSt :=
  if r = ',' ∧ ¬st.esc ∧ ¬st.q then
    if st.sb.length = 0 then .error .emptyField
    else .ok ⟨st.q, st.esc, "", st.fields ++ [st.sb]⟩
  else
    let sb := st.sb.push r
    if r = '"' ∧ ¬st.esc then .ok ⟨!st.q, st.esc, sb, st.fields⟩
    else if r = '\\' ∧ ¬st.esc then .ok ⟨st.q, true, sb, st.fields⟩
    else if r = '\x00' then .error .nulByte
    else .ok ⟨st.q, false, sb, st.fields⟩

/-- The rune loop of `tokenizeSliceString`. -/
def tokRun (st : TokSt) : List Char → Except Err TokSt
  | [] => .ok st
  | c :: cs =>
    match tokStep st c with
    | .error e => .error e
    | .ok st' => tokRun st' cs

/-- `tokenizeSliceString` (lines 517–553): split a raw list string into raw
fields per the quoting/escaping grammar. -/
def tokenizeSliceString (s : String) : Except Err (List String) :=
  match tokRun ⟨false, false, "", []⟩ s.data with
  | .error e => .error e
  | .ok st =>
    let fields := if st.sb.length > 0 then st.fields ++ [st.sb] else st.fields
    if st.q then .error .unbalancedQuotes
    else if st.esc then .error .trailingEscape
    else .ok fields

/-! ## Field unescaping (`unescapeSliceField`, lines 555–585) -/

/-- `unicode.IsSpace` restricted to Latin-1, exactly as Go defines it there:
space, TAB, LF, VT, FF, CR, NEL (U+0085), NBSP (U+00A0). -/
def goIsSpace (c : Char) : Bool :=
  c = ' ' || c = '\t' || c = '\n' || c = Char.ofNat 11 || c = Char.ofNat 12 ||
  c = '\r' || c = Char.ofNat 0x85 || c = Char.ofNat 0xA0

/-- The backwards trailing-space scan of `unescapeSliceField` (lines
558–567).  `trimEndAux runes k` is the loop with current index `k - 1`; the
result is the final (inclusive) `end` index, `-1` when the loop ran out. -/
def trimEndAux (runes : List Char) : Nat → Int
  | 0 => -1
  | k + 1 =>
    let c := runes.getD k ' '
    if goIsSpace c then trimEndAux runes k
    else if c = '\\' then (k : Int) + 1
    else (k : Int)

/-- The leading-space scan of `unescapeSliceField` (lines 570–572): index of
the first non-space rune (list length when all runes are spaces). -/
def trimStartIdx : List Char → Nat
  | [] => 0
  | c :: rest => if goIsSpace c then trimStartIdx rest + 1 else 0

/-- The extract-and-unescape loop of `unescapeSliceField` (lines 575–583),
reformulated over the remaining runes (the drop at index `start`) with the
iteration budget `end - i + 1`.  A backslash consumes the following rune
verbatim — even one past `end`, as the source's inner `i++` does.  A
backslash with no rune after it corresponds to the source's out-of-range
panic (reachable only for a field whose trimmed content ends in an escaped
backslash), a case outside every claim. -/
def unescLoop : Nat → List Char → String → String
  | 0, _, acc => acc
  | _ + 1, [], acc => acc
  | n + 2, '\\' :: c2 :: rest2, acc => unescLoop n rest2 (acc.push c2)
  | 1, '\\' :: c2 :: _, acc => acc.push c2
  | _ + 1, '\\' :: [], acc => acc
  | n + 1, c :: rest, acc =>
    if c ≠ '"' then unescLoop n rest (acc.push c) else unescLoop n rest acc

/-- `unescapeSliceField` (lines 555–585): trim leading/trailing unescaped
whitespace, drop unescaped quotes, collapse escapes. -/
def unescapeSliceField (f : String) : String :=
  let runes := f.data
  let s := trimStartIdx runes
  unescLoop (trimEndAux runes runes.length + 1 - (s : Int)).toNat
    (runes.drop s) ""

/-- The tokenize-then-unescape front half of `parseAndSetSlice` (lines
588–595). -/
def sliceFields (s : String) : Except Err (List String) :=
  match tokenizeSliceString s with
  | .error e => .error e
  | .ok fields => .ok (fields.map unescapeSliceField)

/-! ## Loader: registry and TextUnmarshaler capabilities -/

/-- A `parseFunc` (line 370): coerce a string into a value of the target
type, or fail. -/
def ParseFn : Type := String → Except Err Val

mutual

/-- Equality of types (`reflect.Type` identity), used by the registry map. -/
def tyBeq : Ty → Ty → Bool
  | .base a, .base b => a == b
  | .named i u, .named j w => i == j && tyBeq u w
  | .ptr a, .ptr b => tyBeq a b
  | .strct fs, .strct gs => fieldListBeq fs gs
  | .slice a, .slice b => tyBeq a b
  | .mapT a b, .mapT c d => tyBeq a c && tyBeq b d
  | _, _ => false

/-- Pointwise `tyBeq` on field lists. -/
def fieldListBeq : List (FieldMeta × Ty) → List (FieldMeta × Ty) → Bool
  | [], [] => true
  | (m, t) :: fs, (n, u) :: gs => m == n && tyBeq t u && fieldListBeq fs gs
  | _, _ => false

end

/-- The `UnmarshalText` capability a named type may carry: whether the method
has a value receiver, whether it has a pointer receiver, and its behaviour
(the new value of the named type on success).  Following the repository's
example implementation, a failing `UnmarshalText` is taken not to write. -/
structure TUCap where
  onVal : Bool
  onPtr : Bool
  parse : ParseFn

/-- The loader (lines 399–401): the registry, plus the ambient capability
table telling which named types implement `encoding.TextUnmarshaler`. -/
structure Loader where
  parsers : List (Ty × ParseFn)
  tuCaps : List (Nat × TUCap)

/-- Registry lookup `l.parsers[rt]` (exact type). -/
def lookupParser (l : Loader) (t : Ty) : Option ParseFn :=
  (l.parsers.find? (fun p => tyBeq p.1 t)).map (·.2)

/-- `l.hasParser` (lines 424–427). -/
def hasParser (l : Loader) (t : Ty) : Bool := (lookupParser l t).isSome

/-- Whether the *method set* of type `t` contains `UnmarshalText`, i.e.
whether `rv.Interface().(encoding.TextUnmarshaler)` succeeds for a value of
type `t`, and with which behaviour (the returned function yields the new
value of type `t`).  Per Go's method-set rules, only a named type (value
receiver) or a pointer to a named type (either receiver) qualifies. -/
def tuMethodSet (l : Loader) : Ty → Option ParseFn
  | .named id _ =>
    match (l.tuCaps.find? (fun p => p.1 = id)).map (·.2) with
    | some c => if c.onVal then some c.parse else none
    | none => none
  | .ptr (.named id _) =>
    match (l.tuCaps.find? (fun p => p.1 = id)).map (·.2) with
    | some c =>
      if c.onVal || c.onPtr then
        some (fun s => (c.parse s).map Val.ptrv)
      else none
    | none => none
  | _ => none

/-- `textUnmarshaler` (lines 661–675) for an addressable `rv` of type `t`
(every engine call site passes an addressable value): try the value itself,
then its address.  The returned function gives the new value stored at the
location of type `t` after a successful `UnmarshalText`. -/
def textUnmarshaler (l : Loader) (t : Ty) : Option ParseFn :=
  match tuMethodSet l t with
  | some f => some f
  | none =>
    match tuMethodSet l (.ptr t) with
    | some _ =>
      -- the capability found on the address writes the value in place
      match t with
      | .named id _ => (l.tuCaps.find? (fun p => p.1 = id)).map (·.2.parse)
      | _ => none
    | none => none

/-! ## Value binder (`parseAndSetValue`, lines 499–515, and
`parseAndSetSlice`, lines 587–605)

Each function takes the current value `v` stored at the target location and
returns the value stored there afterwards, together with the error (the
location is returned unchanged exactly when the source does not `Set` it). -/

mutual

/-- `parseAndSetValue` (lines 499–515): TextUnmarshaler first, then the
registry entry for the exact type, then — for slice-kinded types — the list
grammar, otherwise "parsing of %v not supported". -/
def parseAndSetValue (l : Loader) (t : Ty) (v : Val) (s : String) :
    Val × Option Err :=
  match textUnmarshaler l t with
  | some tu =>
    match tu s with
    | .ok v' => (v', none)
    | .error e => (v, some e)
  | none =>
    match lookupParser l t with
    | some f =>
      match f s with
      | .ok v' => (v', none)
      | .error e => (v, some e)
    | none =>
      if h : kindOf t = .sliceK then parseAndSetSlice l t v s
      else (v, some (.unsupported t))
termination_by (3 * sizeOf t + 1, 0)
decreasing_by
  have := sizeOf_elemTy_lt_of_slice t h
  exact Prod.Lex.left _ _ (by omega)

/-- `parseAndSetSlice` (lines 587–605): tokenize, unescape each field, build
a fresh slice element by element, and assign it only when every element
parsed. -/
def parseAndSetSlice (l : Loader) (t : Ty) (v : Val) (s : String) :
    Val × Option Err :=
  match tokenizeSliceString s with
  | .error e => (v, some e)
  | .ok fieldsRaw =>
    match setSliceElems l (elemTy t) 0 (fieldsRaw.map unescapeSliceField) with
    | .error e => (v, some e)
    | .ok vs => (.slv vs, none)
termination_by (3 * sizeOf (elemTy t) + 3, 0)
decreasing_by
  exact Prod.Lex.left _ _ (by omega)

/-- The element loop of `parseAndSetSlice` (lines 598–602): each fresh slice
slot starts at the element type's zero value and is parsed in place. -/
def setSliceElems (l : Loader) (et : Ty) (i : Nat) :
    List String → Except Err (List Val)
  | [] => .ok []
  | f :: rest =>
    match parseAndSetValue l et (zeroVal et) f with
    | (_, some e) => .error (.item i e)
    | (v', none) =>
      match setSliceElems l et (i + 1) rest with
      | .error e => .error e
      | .ok vs => .ok (v' :: vs)
termination_by fs => (3 * sizeOf et + 2, fs.length)
decreasing_by
  · simp_wf
    exact Prod.Lex.left _ _ (by omega)
  · simp_wf
    exact Prod.Lex.right _ (by omega)

end

/-! ## Associative-key scanner (`varsPrefixed`, lines 607–618, and
`parseAndSetMap`, lines 620–644) -/

/-- Rune-level `strings.HasPrefix`. -/
def goHasPfx (s pfx : String) : Bool :=
  decide (s.data.take pfx.data.length = pfx.data)

/-- Rune-level suffix `varName[len(mapName):]`. -/
def strDrop (s : String) (n : Nat) : String := ⟨s.data.drop n⟩

/-- `varsPrefixed` (lines 607–618): the environment entries whose name starts
with `prefix`.  The environment snapshot is modelled as the (name, value)
association list `os.Environ` yields; Go collects the matches into a map and
iterates it in unspecified order — the model keeps snapshot order, and no
theorem below depends on that order beyond what holds for every order. -/
def varsPrefixed (env : List (String × String)) (pfx : String) :
    List (String × String) :=
  env.filter (fun p => goHasPfx p.1 pfx)

/-- `SetMapIndex`: insert an entry, replacing an existing equal key. -/
def insertEntry (k v : Val) : List (Val × Val) → List (Val × Val)
  | [] => [(k, v)]
  | (k', v') :: rest =>
    if valBeq k' k then (k', v) :: rest else (k', v') :: insertEntry k v rest

/-- Coercion of one map-key (or map-value) string inside the loop of
`parseAndSetMap` (lines 627–631): a fresh zero of the declared type is
materialized through `follow` and parsed in place. -/
def mapCoerce (l : Loader) (t : Ty) (s : String) : Val × Option Err :=
  parseAndSetValue l (stripPtr t) (followLeafVal t (zeroVal t)) s

/-- The entry loop of `parseAndSetMap` (lines 625–640).  `orig` is the value
of the destination, returned unchanged when an entry fails. -/
def mapLoop (l : Loader) (pfx : String) (kt vt : Ty) (orig : Val) :
    List (String × String) → List (Val × Val) → Val × Option Err
  | [], acc => (.mapv acc, none)
  | (varName, valStr) :: rest, acc =>
    let keyStr := strDrop varName pfx.length
    match mapCoerce l kt keyStr with
    | (_, some e) => (orig, some (.mapKeyErr keyStr kt e))
    | (kleaf, none) =>
      match mapCoerce l vt valStr with
      | (_, some e) => (orig, some (.mapValErr valStr vt e))
      | (vleaf, none) =>
        mapLoop l pfx kt vt orig rest
          (insertEntry (rebuildPtrs kt kleaf) (rebuildPtrs vt vleaf) acc)

/-- `parseAndSetMap` (lines 620–644): build a fresh map from every
environment entry under `mapName` and assign it wholesale on success. -/
def parseAndSetMap (l : Loader) (env : List (String × String))
    (mapName : String) (kt vt : Ty) (v : Val) : Val × Option Err :=
  mapLoop l mapName kt vt v (varsPrefixed env mapName) []

/-! ## `loadVar` (lines 477–497) and the record walker (lines 436–475)

`os.LookupEnv` is modelled by a lookup in the environment snapshot; each
function's third result component is the list of names passed to
`os.LookupEnv`, in order, so that claims about which single lookups happen
are statable. -/

/-- `os.LookupEnv` over the snapshot. -/
def lookupEnv (env : List (String × String)) (name : String) :
    Option String :=
  (env.find? (fun p => p.1 == name)).map (·.2)

/-- The body of `loadVar` after the conditional `follow` (lines 481–496):
`rv` has type `t` and holds `v`. -/
def loadVarCore (l : Loader) (env : List (String × String)) (t : Ty)
    (v : Val) (name : String) : Val × Option Err × List String :=
  if (textUnmarshaler l t).isNone ∧ kindOf t = .mapK then
    match parseAndSetMap l env name (keyTy t) (mapValTy t) v with
    | (v', some e) => (v', some (.cannotParseMap t e), [])
    | (v', none) => (v', none, [])
  else
    match lookupEnv env name with
    | none => (v, some .varMissing, [name])
    | some s =>
      match parseAndSetValue l t v s with
      | (v', some e) => (v', some (.cannotParseAs s t e), [name])
      | (v', none) => (v', none, [name])

/-- `loadVar` (lines 477–497): unless the exact declared type has a registry
entry, `follow` first materializes and strips all pointer levels (line
478–480); the rest of the body then operates on the followed location.  The
returned value is the new value of the original location (the pointer chain
around the possibly-updated leaf). -/
def loadVar (l : Loader) (env : List (String × String)) (t : Ty) (v : Val)
    (name : String) : Val × Option Err × List String :=
  if hasParser l t then loadVarCore l env t v name
  else
    let r := loadVarCore l env (stripPtr t) (followLeafVal t v) name
    (rebuildPtrs t r.1, r.2)

mutual

/-- `loadStruct` (lines 436–475).  `addr` is `rv.CanAddr()` of the incoming
value (`false` at the root, where `reflect.ValueOf(dst)` is never
addressable; `true` for every struct field).  The destination is resolved
through `follow` first; a non-struct or non-addressable result is the single
fatal `errInvalidDst`. -/
def loadStruct (l : Loader) (env : List (String × String)) (addr : Bool)
    (t : Ty) (v : Val) (pfx : String) : Val × List Err × List String :=
  let leafT := stripPtr t
  let leafV := followLeafVal t v
  let addr' := addr || decide (kindOf t = .ptrK)
  if h : kindOf leafT = .structK ∧ addr' = true then
    let vs := match leafV with
      | .strv vs => vs
      | _ => zeroFields (structFields leafT)
    let r := loadFields l env pfx (structFields leafT) vs
    (rebuildPtrs t (.strv r.1), r.2)
  else (rebuildPtrs t leafV, [.invalidDst], [])
termination_by (sizeOf t, 1)
decreasing_by
  have h1 := sizeOf_structFields_lt (stripPtr t) h.1
  have h2 := sizeOf_stripPtr_le t
  exact Prod.Lex.left _ _ (by omega)

/-- The body of one iteration of the field loop of `loadStruct` (lines
443–472), processing declared field `(m, ft)` whose storage currently holds
`fv`.  An untagged, non-anonymous-struct field is skipped; an unexported
field contributes `errUnexportedDst`; a struct-kinded field with neither
registry entry nor TextUnmarshaler is recursed into; anything else is bound
via `loadVar` with its error wrapped under the qualified name.  (The
`CanInterface && CanSet` guard of line 459 is omitted: for an exported field
of an addressable struct it always passes.) -/
def loadField (l : Loader) (env : List (String × String)) (pfx : String)
    (m : FieldMeta) (ft : Ty) (fv : Val) : Val × List Err × List String :=
  let isStruct := kindOf ft = .structK
  if m.tag.isNone ∧ ¬(isStruct ∧ m.anonymous) then (fv, [], [])
  else if ¬m.exported then (fv, [.unexported m.fname], [])
  else
    let name := pfx ++ m.tag.getD ""
    if isStruct ∧ ¬hasParser l ft ∧ (textUnmarshaler l ft).isNone then
      loadStruct l env true ft fv name
    else
      match loadVar l env ft fv name with
      | (fv', some e, lks) => (fv', [.fieldErr name e], lks)
      | (fv', none, lks) => (fv', [], lks)
termination_by (sizeOf ft, 2)
decreasing_by exact Prod.Lex.right _ (by omega)

/-- The field loop of `loadStruct` (lines 443–473), walking declared fields
in order against their current values and concatenating every field's
errors (and lookups) without short-circuiting. -/
def loadFields (l : Loader) (env : List (String × String)) (pfx : String) :
    List (FieldMeta × Ty) → List Val → List Val × List Err × List String
  | [], _ => ([], [], [])
  | (m, ft) :: rest, vs =>
    let fieldRes := loadField l env pfx m ft (vs.headD (zeroVal ft))
    let restRes := loadFields l env pfx rest vs.tail
    (fieldRes.1 :: restRes.1, fieldRes.2.1 ++ restRes.2.1,
      fieldRes.2.2 ++ restRes.2.2)
termination_by fs => (sizeOf fs, 0)
decreasing_by
  · exact Prod.Lex.left _ _ (by simp; omega)
  · exact Prod.Lex.left _ _ (by simp)

end

/-- `loader.Load` (lines 410–416): walk the destination and aggregate; the
second component is `none` on success and the aggregate error wrapping all
collected errors otherwise. -/
def loadModel (l : Loader) (env : List (String × String)) (t : Ty) (v : Val)
    (pfx : String) : Val × Option (List Err) × List String :=
  let r := loadStruct l env false t v pfx
  (r.1, if r.2.1.length > 0 then some r.2.1 else none, r.2.2)

/-! ## Auxiliary notions used by the theorems -/

/-- `n`-level pointer type around a leaf. -/
def iterPtr : Nat → Ty → Ty
  | 0, t => t
  | n + 1, t => .ptr (iterPtr n t)

/-- `n`-level materialized (non-nil) pointer chain around a leaf value. -/
def iterPtrv : Nat → Val → Val
  | 0, v => v
  | n + 1, v => .ptrv (iterPtrv n v)

/-- The coerced (key, value) pair `parseAndSetMap` builds from one
environment entry. -/
def coercePair (l : Loader) (pfx : String) (kt vt : Ty)
    (p : String × String) : Val × Val :=
  (rebuildPtrs kt (mapCoerce l kt (strDrop p.1 pfx.length)).1,
   rebuildPtrs vt (mapCoerce l vt p.2).1)

/-- A parser that accepts every string as-is: the model's stand-in for the
registered `string` parser (`parseString`, line 772). -/
def strParser : ParseFn := fun s => .ok (.prim s)

/-- A parser that normalizes its input to the decimal form of its length;
two distinct suffixes can coerce to the same key through it (as, e.g., two
decimal spellings of one integer do through `parseInt`). -/
def lenParser : ParseFn := fun s => .ok (.prim (toString s.data.length))

/-- A loader with a string-like base type 0. -/
def Lstr : Loader := ⟨[(.base 0, strParser)], []⟩

/-- A loader whose key type (base 0) normalizes via `lenParser` and whose
value type (base 1) is string-like. -/
def Lnorm : Loader := ⟨[(.base 0, lenParser), (.base 1, strParser)], []⟩

/-- A loader where the named type 9 carries a value-receiver
`UnmarshalText`. -/
def Ltu : Loader :=
  ⟨[], [(9, ⟨true, false, fun s => .ok (.mapv [(.prim s, .prim s)])⟩)]⟩

/-- A parser that rejects every string. -/
def failParser : ParseFn := fun _ => .error (.custom "bad")

/-- A loader whose base type 2 always fails to coerce. -/
def Lfail : Loader := ⟨[(.base 0, strParser), (.base 2, failParser)], []⟩

/-! ## Claims -/

/-- C1: the walk collects every failing field's errors — those of a bound
field and those of a recursed-into nested record — by concatenation in
field-encounter order, never short-circuiting on a field failure, and `Load`
returns success exactly when the collected sequence is empty, otherwise the
single aggregate failure wrapping exactly that sequence. -/
theorem claim_C1_error_accumulation :
    ∀ (l : Loader) (env : List (String × String)) (t : Ty) (v : Val)
      (pfx : String),
    ((loadModel l env t v pfx).2.1 =
        if (loadStruct l env false t v pfx).2.1.length = 0
        then none else some (loadStruct l env false t v pfx).2.1) ∧
    ((loadModel l env t v pfx).2.1 = none ↔
        (loadStruct l env false t v pfx).2.1 = []) ∧
    (∀ (pfx' : String) (m : FieldMeta) (ft : Ty)
       (rest : List (FieldMeta × Ty)) (vs : List Val),
      loadFields l env pfx' ((m, ft) :: rest) vs =
        ((loadField l env pfx' m ft (vs.headD (zeroVal ft))).1 ::
            (loadFields l env pfx' rest vs.tail).1,
         (loadField l env pfx' m ft (vs.headD (zeroVal ft))).2.1 ++
            (loadFields l env pfx' rest vs.tail).2.1,
         (loadField l env pfx' m ft (vs.headD (zeroVal ft))).2.2 ++
            (loadFields l env pfx' rest vs.tail).2.2)) := by
  intro l env t v pfx
  refine ⟨?_, ?_, ?_⟩
  · simp only [loadModel]
    rcases h : (loadStruct l env false t v pfx).2.1 with _ | ⟨e, es⟩ <;> simp
  · simp only [loadModel]
    rcases h : (loadStruct l env false t v pfx).2.1 with _ | ⟨e, es⟩ <;> simp
  · intro pfx' m ft rest vs
    simp [loadFields]

/-- C2: `parseAndSetValue` dispatches in this fixed order: (1) the
TextUnmarshaler capability — found on the value itself or, for a type that
does not itself hold it, through its address (last conjunct); (2) the
registry entry for the exact declared type; (3) the list grammar for
slice-kinded types; (4) otherwise the unsupported-type failure. -/
theorem claim_C2_bindValue_dispatch_order :
    ∀ (l : Loader) (t : Ty) (v : Val) (s : String),
    (∀ tu, textUnmarshaler l t = some tu →
      parseAndSetValue l t v s =
        match tu s with
        | .ok v' => (v', none)
        | .error e => (v, some e)) ∧
    (textUnmarshaler l t = none → ∀ f, lookupParser l t = some f →
      parseAndSetValue l t v s =
        match f s with
        | .ok v' => (v', none)
        | .error e => (v, some e)) ∧
    (textUnmarshaler l t = none → lookupParser l t = none →
      kindOf t = .sliceK →
      parseAndSetValue l t v s = parseAndSetSlice l t v s) ∧
    (textUnmarshaler l t = none → lookupParser l t = none →
      kindOf t ≠ .sliceK →
      parseAndSetValue l t v s = (v, some (.unsupported t))) ∧
    (∀ (i : Nat) (u : Ty) (c : TUCap), t = .named i u →
      (l.tuCaps.find? (fun p => p.1 = i)).map (·.2) = some c →
      c.onVal = false → c.onPtr = true →
      textUnmarshaler l t = some c.parse) := by
  intro l t v s
  refine ⟨?_, ?_, ?_, ?_, ?_⟩
  · intro tu htu
    simp [parseAndSetValue, htu]
  · intro htu f hf
    simp [parseAndSetValue, htu, hf]
  · intro htu hf hk
    simp [parseAndSetValue, htu, hf, hk]
  · intro htu hf hk
    simp [parseAndSetValue, htu, hf, hk]
  · intro i u c ht hc hval hptr
    subst ht
    rcases Option.map_eq_some'.mp hc with ⟨p, hfind, hp2⟩
    simp [textUnmarshaler, tuMethodSet, hfind, hp2, hval, hptr]

/-- Witness for C2: a loader exercising all five conjuncts — a named type
with a value-receiver capability, a named type with only a registry entry, a
plain slice type, an unregistered scalar type, and a named type whose
capability sits only on the pointer receiver. -/
def Lc2 : Loader :=
  ⟨[(.named 7 (.base 0), strParser), (.base 0, strParser)],
   [(5, ⟨true, false, fun s => .ok (.prim ("tu" ++ s))⟩),
    (6, ⟨false, true, fun s => .ok (.prim ("ptu" ++ s))⟩)]⟩

/-- Concrete instantiation of every conjunct of
`claim_C2_bindValue_dispatch_order`. -/
theorem claim_C2_witness :
    parseAndSetValue Lc2 (.named 5 (.base 0)) (.prim "z") "a" =
      (.prim "tua", none) ∧
    parseAndSetValue Lc2 (.named 7 (.base 0)) (.prim "z") "a" =
      (.prim "a", none) ∧
    parseAndSetValue Lc2 (.slice (.base 0)) (.slv []) "a" =
      parseAndSetSlice Lc2 (.slice (.base 0)) (.slv []) "a" ∧
    parseAndSetValue Lc2 (.base 1) (.prim "z") "a" =
      (.prim "z", some (.unsupported (.base 1))) ∧
    textUnmarshaler Lc2 (.named 6 (.base 0)) =
      some (fun s => .ok (.prim ("ptu" ++ s))) := by
  refine ⟨?_, ?_, ?_, ?_, ?_⟩
  · exact ((claim_C2_bindValue_dispatch_order Lc2 (.named 5 (.base 0))
      (.prim "z") "a").1 _ rfl).trans rfl
  · exact (((claim_C2_bindValue_dispatch_order Lc2 (.named 7 (.base 0))
      (.prim "z") "a").2.1 rfl) _ rfl).trans rfl
  · exact (claim_C2_bindValue_dispatch_order Lc2 (.slice (.base 0))
      (.slv []) "a").2.2.1 rfl rfl rfl
  · exact (claim_C2_bindValue_dispatch_order Lc2 (.base 1)
      (.prim "z") "a").2.2.2.1 rfl rfl (by simp [kindOf])
  · exact (claim_C2_bindValue_dispatch_order Lc2 (.named 6 (.base 0))
      (.prim "z") "a").2.2.2.2 6 (.base 0) _ rfl rfl rfl rfl

/-- C6: on the concrete list-grammar inputs enumerated in the spec,
tokenize-plus-unescape produces exactly the listed results: `"x"` yields
[x]; the empty string yields []; `a,b` yields [a, b]; `a, b` yields [a, b]
with surrounding spaces trimmed; `a,b, "c,d"` yields [a, b, c,d]; `,,`
fails with EmptyUnquotedField; `"x` fails with UnbalancedQuotes; a lone
trailing backslash fails with TrailingEscape. -/
theorem claim_C6_list_grammar_cases :
    sliceFields "\"x\"" = .ok ["x"] ∧
    sliceFields "" = .ok [] ∧
    sliceFields "a,b" = .ok ["a", "b"] ∧
    sliceFields "a, b" = .ok ["a", "b"] ∧
    sliceFields "a,b, \"c,d\"" = .ok ["a", "b", "c,d"] ∧
    sliceFields ",," = .error .emptyField ∧
    sliceFields "\"x" = .error .unbalancedQuotes ∧
    sliceFields "\\" = .error .trailingEscape :=
  ⟨rfl, rfl, rfl, rfl, rfl, rfl, rfl, rfl⟩

/-- C8: a destination field with no `env` tag and no anonymous-composition
flag is skipped entirely by the walk: its stored value is passed through
untouched, it triggers no environment lookup, and it contributes no
error. -/
theorem claim_C8_untagged_field_skipped :
    ∀ (l : Loader) (env : List (String × String)) (pfx fname : String)
      (ex : Bool) (ft : Ty) (rest : List (FieldMeta × Ty)) (v : Val)
      (vs : List Val),
    loadFields l env pfx ((⟨fname, ex, none, false⟩, ft) :: rest) (v :: vs) =
      (v :: (loadFields l env pfx rest vs).1,
       (loadFields l env pfx rest vs).2.1,
       (loadFields l env pfx rest vs).2.2) := by
  intro l env pfx fname ex ft rest v vs
  simp [loadFields, loadField]

/-- Striping an iterated pointer type reaches the base leaf. -/
theorem stripPtr_iterPtr_base (n b : Nat) :
    stripPtr (iterPtr n (.base b)) = .base b := by
  induction n with
  | zero => rfl
  | succ n ih => simpa [iterPtr, stripPtr] using ih

/-- Rebuilding through an iterated pointer type materializes every level. -/
theorem rebuildPtrs_iterPtr_base (n b : Nat) (x : Val) :
    rebuildPtrs (iterPtr n (.base b)) x = iterPtrv n x := by
  induction n with
  | zero => rfl
  | succ n ih => simpa [iterPtr, iterPtrv, rebuildPtrs] using ih

/-- A destination of one field `B *string` (modelled as `ptr (base 0)`)
whose variable is absent: `Load` reports `VariableMissing` — but the
field's stored value is *not* unchanged; `follow` ran before the lookup and
materialized the pointer (nil became a pointer to the zero leaf).  This
contradicts C3's "no partially materialized pointer chain is observable to
the caller (the field's stored value is unchanged on this error)". -/
theorem claim_C3_counterexample :
    loadModel Lstr [] (.ptr (.strct [(⟨"B", true, some "B", false⟩,
        .ptr (.base 0))])) (.ptrv (.strv [.nilp])) "" =
      (.ptrv (.strv [.ptrv (.prim "")]),
       some [.fieldErr "B" .varMissing], ["B"]) ∧
    Val.ptrv (.prim "") ≠ .nilp := by
  constructor
  · simp [loadModel, loadStruct, loadFields, loadField, loadVar, loadVarCore,
      hasParser, lookupParser, Lstr, stripPtr, followLeafVal, rebuildPtrs,
      kindOf, textUnmarshaler, tuMethodSet, lookupEnv, zeroVal, structFields,
      tyBeq]
  · intro h
    cases h

/-- C3 as amended: for a field declared as `N ≥ 1` levels of pointer
indirection to a base leaf (no registry entry for the pointer type itself),
a present variable yields all `N` levels materialized with the coerced leaf
in place; an absent variable yields `VariableMissing` *and* the chain
equally fully materialized, around the followed (zero-initialized) leaf —
the materialization is observable to the caller even on this error. -/
theorem claim_C3_amended :
    ∀ (l : Loader) (env : List (String × String)) (n b : Nat) (v : Val)
      (name : String),
    lookupParser l (iterPtr (n + 1) (.base b)) = none →
    (∀ (s : String) (f : ParseFn) (w : Val), lookupEnv env name = some s →
      lookupParser l (.base b) = some f → f s = .ok w →
      loadVar l env (iterPtr (n + 1) (.base b)) v name =
        (iterPtrv (n + 1) w, none, [name])) ∧
    (lookupEnv env name = none →
      loadVar l env (iterPtr (n + 1) (.base b)) v name =
        (iterPtrv (n + 1) (followLeafVal (iterPtr (n + 1) (.base b)) v),
         some .varMissing, [name])) := by
  intro l env n b v name hnp
  have htu : textUnmarshaler l (.base b) = none := rfl
  constructor
  · intro s f w hs hf hw
    simp [loadVar, hasParser, hnp, stripPtr_iterPtr_base,
      rebuildPtrs_iterPtr_base, loadVarCore, htu, kindOf, hs,
      parseAndSetValue, hf, hw]
  · intro hs
    simp [loadVar, hasParser, hnp, stripPtr_iterPtr_base,
      rebuildPtrs_iterPtr_base, loadVarCore, htu, kindOf, hs]

/-- Concrete instantiation of both branches of `claim_C3_amended` at two
levels of indirection. -/
theorem claim_C3_amended_witness :
    loadVar Lstr [("X", "h")] (iterPtr 2 (.base 0)) .nilp "X" =
      (iterPtrv 2 (.prim "h"), none, ["X"]) ∧
    loadVar Lstr [] (iterPtr 2 (.base 0)) .nilp "X" =
      (iterPtrv 2 (followLeafVal (iterPtr 2 (.base 0)) .nilp),
       some .varMissing, ["X"]) :=
  ⟨(claim_C3_amended Lstr [("X", "h")] 1 0 .nilp "X" rfl).1 "h" strParser
      (.prim "h") rfl rfl rfl,
   (claim_C3_amended Lstr [] 1 0 .nilp "X" rfl).2 rfl⟩

/-- The whitespace-only field `" "` is empty after trimming and contains no
quoted span, yet list parsing succeeds and yields the empty element — and a
zero-length final segment (`"a,"`) is silently dropped rather than
rejected.  This contradicts C4's "any split field that is empty after
trimming … makes list parsing fail with the EmptyUnquotedField error" and
"an intentionally empty element is accepted only when written as an
explicit empty quoted span". -/
theorem claim_C4_counterexample :
    tokenizeSliceString " " = .ok [" "] ∧
    unescapeSliceField " " = "" ∧
    parseAndSetSlice Lstr (.slice (.base 0)) (.slv [.prim "old"]) " " =
      (.slv [.prim ""], none) ∧
    tokenizeSliceString "a," = .ok ["a"] := by
  refine ⟨rfl, rfl, ?_, rfl⟩
  have h1 : tokenizeSliceString " " = .ok [" "] := rfl
  have h2 : unescapeSliceField " " = "" := rfl
  simp [parseAndSetSlice, h1, h2, setSliceElems, parseAndSetValue,
    textUnmarshaler, tuMethodSet, lookupParser, Lstr, tyBeq, elemTy, zeroVal,
    strParser]

/-- The scanner invariant behind the amended C4: a successful `tokRun`
starting from a state with only nonempty collected fields ends with only
nonempty collected fields. -/
theorem tokRun_fields_nonempty :
    ∀ (cs : List Char) (st st' : TokSt), tokRun st cs = .ok st' →
      (∀ f ∈ st.fields, f.length ≠ 0) → ∀ f ∈ st'.fields, f.length ≠ 0 := by
  intro cs
  induction cs with
  | nil =>
    intro st st' h hf
    simp [tokRun] at h
    simpa [← h] using hf
  | cons c cs ih =>
    intro st st' h hf
    rw [tokRun] at h
    rcases hstep : tokStep st c with _ | st1
    · simp [hstep] at h
    · rw [hstep] at h
      refine ih st1 st' h ?_
      rw [tokStep] at hstep
      split at hstep
      · split at hstep
        · cases hstep
        · cases hstep
          intro f hfm
          rcases List.mem_append.mp hfm with h1 | h1
          · exact hf f h1
          · rcases List.mem_singleton.mp h1 with rfl
            omega
      · split at hstep
        · cases hstep; exact hf
        · split at hstep
          · cases hstep; exact hf
          · split at hstep
            · cases hstep
            · cases hstep; exact hf

/-- C4 as amended: the `EmptyUnquotedField` error fires exactly for a
zero-length raw field delivered at an unquoted, unescaped comma — before
any trimming; consequently a successful tokenization never contains a
zero-length raw field (a zero-length final segment is simply dropped).
Whitespace-only unquoted fields are *not* rejected: they unescape to the
empty string (see the counterexample). -/
theorem claim_C4_amended :
    (∀ st : TokSt, st.q = false → st.esc = false → st.sb.length = 0 →
      tokStep st ',' = .error .emptyField) ∧
    (∀ (s : String) (fields : List String),
      tokenizeSliceString s = .ok fields → ∀ f ∈ fields, f.length ≠ 0) := by
  constructor
  · intro st hq he hsb
    simp [tokStep, hq, he, hsb]
  · intro s fields h f hfm
    rw [tokenizeSliceString] at h
    rcases hrun : tokRun ⟨false, false, "", []⟩ s.data with _ | st
    · simp [hrun] at h
    · rw [hrun] at h
      have hst : ∀ g ∈ st.fields, g.length ≠ 0 :=
        tokRun_fields_nonempty s.data _ st hrun (by simp)
      simp only at h
      split at h
      · cases h
      · split at h
        · cases h
        · cases h
          split at hfm
          · rcases List.mem_append.mp hfm with h1 | h1
            · exact hst f h1
            · rcases List.mem_singleton.mp h1 with rfl
              omega
          · exact hst f hfm

/-- Concrete instantiation of both conjuncts of `claim_C4_amended`: the
empty field at `,` from the initial state, and the nonemptiness of the
fields tokenized from `"a,b"`. -/
theorem claim_C4_amended_witness :
    tokStep ⟨false, false, "", []⟩ ',' = .error .emptyField ∧
    (∀ f ∈ ["a", "b"], String.length f ≠ 0) :=
  ⟨(claim_C4_amended).1 ⟨false, false, "", []⟩ rfl rfl rfl,
   fun f hf => (claim_C4_amended).2 "a,b" ["a", "b"] rfl f hf⟩

/-- A named map type carrying a value-receiver `UnmarshalText`: although its
resolved kind is an associative container, `bindVar` does *not* delegate to
the scanner — it performs the single environment lookup of the container's
own qualified name (and reports `VariableMissing` here).  This contradicts
C5's unconditional "delegates to the Associative-Key Scanner … and performs
no single environment lookup". -/
theorem claim_C5_counterexample :
    kindOf (stripPtr (.named 9 (.mapT (.base 0) (.base 0)))) = .mapK ∧
    loadVar Ltu [] (.named 9 (.mapT (.base 0) (.base 0))) (.mapv []) "M" =
      (.mapv [], some .varMissing, ["M"]) ∧
    ["M"] ≠ ([] : List String) := by
  refine ⟨rfl, ?_, by simp⟩
  simp [loadVar, loadVarCore, hasParser, lookupParser, Ltu, stripPtr,
    followLeafVal, rebuildPtrs, kindOf, textUnmarshaler, tuMethodSet,
    lookupEnv, tyBeq]

/-- C5 as amended: when the type resolved by the indirection rule is
map-kinded *and the resolved value does not offer the text-unmarshal
capability*, `bindVar` delegates to the associative-key scanner with
per-entry coercion and performs no environment lookup at all (the lookup
trace is empty); with the capability present the container is instead bound
through a single lookup (see the counterexample). -/
theorem claim_C5_amended :
    ∀ (l : Loader) (env : List (String × String)) (t : Ty) (v : Val)
      (name : String),
    hasParser l t = false →
    kindOf (stripPtr t) = .mapK →
    textUnmarshaler l (stripPtr t) = none →
    loadVar l env t v name =
      (rebuildPtrs t (parseAndSetMap l env name (keyTy (stripPtr t))
          (mapValTy (stripPtr t)) (followLeafVal t v)).1,
       (parseAndSetMap l env name (keyTy (stripPtr t))
          (mapValTy (stripPtr t)) (followLeafVal t v)).2.map
         (Err.cannotParseMap (stripPtr t)),
       []) := by
  intro l env t v name hp hk htu
  rcases hm : parseAndSetMap l env name (keyTy (stripPtr t))
      (mapValTy (stripPtr t)) (followLeafVal t v) with ⟨v', e?⟩
  rcases e? with _ | e <;>
    simp [loadVar, hp, loadVarCore, htu, hk, hm]

/-- Concrete instantiation of `claim_C5_amended`: a plain `map[string]string`
container binds through the scanner, touches no single lookup, and collects
the one prefixed entry. -/
theorem claim_C5_amended_witness :
    loadVar Lstr [("MA", "x")] (.mapT (.base 0) (.base 0)) (.mapv []) "M" =
      (.mapv [(.prim "A", .prim "x")], none, []) := by
  have h := claim_C5_amended Lstr [("MA", "x")] (.mapT (.base 0) (.base 0))
    (.mapv []) "M" rfl rfl rfl
  rw [h]
  simp [parseAndSetMap, varsPrefixed, goHasPfx, mapLoop, mapCoerce,
    strDrop, parseAndSetValue, textUnmarshaler, tuMethodSet, lookupParser,
    Lstr, tyBeq, stripPtr, followLeafVal, rebuildPtrs, zeroVal, strParser,
    keyTy, mapValTy, insertEntry, kindOf]
  decide

/-- Two external keys under prefix `P` whose suffixes coerce — through the
registered key parser — to the *same* container key: only one container
entry results (last write wins), not one entry per external key.  This
contradicts C7's "exactly one container entry per external key that starts
with p". -/
theorem claim_C7_counterexample :
    (varsPrefixed [("P1", "a"), ("P2", "b")] "P").length = 2 ∧
    parseAndSetMap Lnorm [("P1", "a"), ("P2", "b")] "P" (.base 0) (.base 1)
        (.mapv []) = (.mapv [(.prim "1", .prim "b")], none) := by
  constructor
  · rfl
  · simp [parseAndSetMap, varsPrefixed, goHasPfx, mapLoop, mapCoerce,
      strDrop, parseAndSetValue, textUnmarshaler, tuMethodSet, lookupParser,
      Lnorm, tyBeq, stripPtr, followLeafVal, rebuildPtrs, zeroVal, strParser,
      lenParser, insertEntry, valBeq, kindOf]
    decide

/-- `SetMapIndex` with a key unequal to every present key appends. -/
theorem insertEntry_append :
    ∀ (acc : List (Val × Val)) (k w : Val),
      (∀ e ∈ acc, valBeq e.1 k = false) →
      insertEntry k w acc = acc ++ [(k, w)] := by
  intro acc k w h
  induction acc with
  | nil => rfl
  | cons e rest ih =>
    have he : valBeq e.1 k = false := h e (by simp)
    simp [insertEntry, he]
    exact ih fun e' he' => h e' (by simp [he'])

/-- The loop of `parseAndSetMap` under everywhere-successful coercions with
pairwise-distinct coerced keys: every scanned entry appends its coerced
pair. -/
theorem mapLoop_no_collision (l : Loader) (pfx : String) (kt vt : Ty)
    (orig : Val) :
    ∀ (vars : List (String × String)) (acc : List (Val × Val)),
    (∀ p ∈ vars, (mapCoerce l kt (strDrop p.1 pfx.length)).2 = none) →
    (∀ p ∈ vars, (mapCoerce l vt p.2).2 = none) →
    (acc.map Prod.fst ++
        vars.map (fun p => (coercePair l pfx kt vt p).1)).Pairwise
      (fun a b => valBeq a b = false) →
    mapLoop l pfx kt vt orig vars acc =
      (.mapv (acc ++ vars.map (coercePair l pfx kt vt)), none) := by
  intro vars
  induction vars with
  | nil =>
    intro acc _ _ _
    simp [mapLoop]
  | cons p rest ih =>
    intro acc hk hv hd
    rcases hck : mapCoerce l kt (strDrop p.1 pfx.length) with ⟨kleaf, ke⟩
    have hke : ke = none := by
      have := hk p (by simp)
      rw [hck] at this
      exact this
    rcases hcv : mapCoerce l vt p.2 with ⟨vleaf, ve⟩
    have hve : ve = none := by
      have := hv p (by simp)
      rw [hcv] at this
      exact this
    subst hke hve
    have hkey : (coercePair l pfx kt vt p).1 = rebuildPtrs kt kleaf := by
      simp [coercePair, hck]
    have hval : (coercePair l pfx kt vt p).2 = rebuildPtrs vt vleaf := by
      simp [coercePair, hcv]
    have hcross : ∀ e ∈ acc, valBeq e.1 (rebuildPtrs kt kleaf) = false := by
      intro e he
      have := (List.pairwise_append.mp hd).2.2 e.1
        (List.mem_map_of_mem Prod.fst he) (rebuildPtrs kt kleaf)
        (by rw [← hkey]; simp)
      exact this
    rw [mapLoop, hck]
    simp only
    rw [hcv]
    simp only
    rw [insertEntry_append acc _ _ hcross]
    rw [ih (acc ++ [(rebuildPtrs kt kleaf, rebuildPtrs vt vleaf)])
      (fun q hq => hk q (by simp [hq])) (fun q hq => hv q (by simp [hq])) ?_]
    · have : (rebuildPtrs kt kleaf, rebuildPtrs vt vleaf) =
          coercePair l pfx kt vt p := by
        rcases hcp : coercePair l pfx kt vt p with ⟨a, b⟩
        rw [hcp] at hkey hval
        simp only at hkey hval
        rw [hkey, hval]
      rw [this]
      simp
    · have hshape := hd
      rw [List.map_cons, hkey] at hshape
      simpa [List.append_assoc] using hshape

/-- C7 as amended: each container entry's key is the recursive coercion of
the external key's suffix and its value the coercion of the raw value; when
the coerced keys of the prefixed snapshot entries are pairwise distinct
(per the container's key equality), binding produces exactly one entry per
external key starting with the prefix — on key collision, entries merge
(last write wins; see the counterexample). -/
theorem claim_C7_amended :
    ∀ (l : Loader) (env : List (String × String)) (pfx : String)
      (kt vt : Ty) (v : Val),
    (∀ p ∈ varsPrefixed env pfx,
      (mapCoerce l kt (strDrop p.1 pfx.length)).2 = none) →
    (∀ p ∈ varsPrefixed env pfx, (mapCoerce l vt p.2).2 = none) →
    ((varsPrefixed env pfx).map
        (fun p => (coercePair l pfx kt vt p).1)).Pairwise
      (fun a b => valBeq a b = false) →
    parseAndSetMap l env pfx kt vt v =
      (.mapv ((varsPrefixed env pfx).map (coercePair l pfx kt vt)), none) ∧
    ((varsPrefixed env pfx).map (coercePair l pfx kt vt)).length =
      (varsPrefixed env pfx).length := by
  intro l env pfx kt vt v hk hv hd
  constructor
  · rw [parseAndSetMap]
    simpa using mapLoop_no_collision l pfx kt vt v (varsPrefixed env pfx) []
      hk hv (by simpa using hd)
  · simp

/-- Concrete instantiation of `claim_C7_amended`: two external keys whose
suffixes have different lengths coerce to distinct keys through the
normalizing parser, giving exactly two entries. -/
theorem claim_C7_amended_witness :
    parseAndSetMap Lnorm [("PA", "x"), ("PBB", "y")] "P" (.base 0) (.base 1)
        (.mapv []) =
      (.mapv [(.prim "1", .prim "x"), (.prim "2", .prim "y")], none) := by
  have h := (claim_C7_amended Lnorm [("PA", "x"), ("PBB", "y")] "P"
    (.base 0) (.base 1) (.mapv [])
    (by intro p hp
        fin_cases hp <;>
          simp [mapCoerce, strDrop, parseAndSetValue, textUnmarshaler,
            tuMethodSet, lookupParser, Lnorm, tyBeq, stripPtr, followLeafVal,
            zeroVal, lenParser, varsPrefixed, goHasPfx, kindOf])
    (by intro p hp
        fin_cases hp <;>
          simp [mapCoerce, parseAndSetValue, textUnmarshaler, tuMethodSet,
            lookupParser, Lnorm, tyBeq, stripPtr, followLeafVal, zeroVal,
            strParser, varsPrefixed, goHasPfx, kindOf])
    (by simp [varsPrefixed, goHasPfx, coercePair, mapCoerce, strDrop,
        parseAndSetValue, textUnmarshaler, tuMethodSet, lookupParser, Lnorm,
        tyBeq, stripPtr, followLeafVal, rebuildPtrs, zeroVal, lenParser,
        valBeq, kindOf]
        decide)).1
  rw [h]
  simp [varsPrefixed, goHasPfx, coercePair, mapCoerce, strDrop,
    parseAndSetValue, textUnmarshaler, tuMethodSet, lookupParser, Lnorm,
    tyBeq, stripPtr, followLeafVal, rebuildPtrs, zeroVal, lenParser,
    strParser, kindOf]
  decide

/-- C9: a tagged, exported field declared as pointer-to-struct — where
neither the struct type nor the pointer type has a registry entry (and, not
being named types, neither has the text-unmarshal capability) — is never
recursed into as a nested record: the walk performs exactly one environment
lookup of the field's qualified name and contributes exactly one error,
`VariableMissing` when absent and the unsupported-type parse failure when
present. -/
theorem claim_C9_ptr_struct_not_recursed :
    ∀ (l : Loader) (env : List (String × String)) (pfx fname tg : String)
      (anon : Bool) (fs rest : List (FieldMeta × Ty)) (v : Val)
      (vs : List Val),
    lookupParser l (.ptr (.strct fs)) = none →
    lookupParser l (.strct fs) = none →
    (lookupEnv env (pfx ++ tg) = none →
      loadFields l env pfx
          ((⟨fname, true, some tg, anon⟩, .ptr (.strct fs)) :: rest)
          (v :: vs) =
        (Val.ptrv (followLeafVal (.ptr (.strct fs)) v) ::
            (loadFields l env pfx rest vs).1,
         .fieldErr (pfx ++ tg) .varMissing ::
            (loadFields l env pfx rest vs).2.1,
         (pfx ++ tg) :: (loadFields l env pfx rest vs).2.2)) ∧
    (∀ s, lookupEnv env (pfx ++ tg) = some s →
      loadFields l env pfx
          ((⟨fname, true, some tg, anon⟩, .ptr (.strct fs)) :: rest)
          (v :: vs) =
        (Val.ptrv (followLeafVal (.ptr (.strct fs)) v) ::
            (loadFields l env pfx rest vs).1,
         .fieldErr (pfx ++ tg)
            (.cannotParseAs s (.strct fs) (.unsupported (.strct fs))) ::
            (loadFields l env pfx rest vs).2.1,
         (pfx ++ tg) :: (loadFields l env pfx rest vs).2.2)) := by
  intro l env pfx fname tg anon fs rest v vs hpp hps
  have htu : textUnmarshaler l (.strct fs) = none := rfl
  constructor
  · intro habs
    simp [loadFields, loadField, kindOf, loadVar, hasParser, hpp, stripPtr,
      followLeafVal, rebuildPtrs, loadVarCore, htu, habs]
  · intro s hpres
    simp [loadFields, loadField, kindOf, loadVar, hasParser, hpp, stripPtr,
      followLeafVal, rebuildPtrs, loadVarCore, htu, hpres, parseAndSetValue,
      hps]

/-- Concrete instantiation of both branches of
`claim_C9_ptr_struct_not_recursed` on a one-field inner struct. -/
theorem claim_C9_witness :
    loadFields Lstr []  "A_"
        ((⟨"In", true, some "IN", false⟩,
          .ptr (.strct [(⟨"F", true, some "F", false⟩, .base 0)])) :: [])
        [Val.nilp] =
      (Val.ptrv (.strv [.prim ""]) :: [],
       .fieldErr "A_IN" .varMissing :: [], "A_IN" :: []) ∧
    loadFields Lstr [("A_IN", "z")] "A_"
        ((⟨"In", true, some "IN", false⟩,
          .ptr (.strct [(⟨"F", true, some "F", false⟩, .base 0)])) :: [])
        [Val.nilp] =
      (Val.ptrv (.strv [.prim ""]) :: [],
       .fieldErr "A_IN"
          (.cannotParseAs "z"
            (.strct [(⟨"F", true, some "F", false⟩, .base 0)])
            (.unsupported
              (.strct [(⟨"F", true, some "F", false⟩, .base 0)]))) :: [],
       "A_IN" :: []) := by
  constructor
  · have h := (claim_C9_ptr_struct_not_recursed Lstr [] "A_" "In" "IN" false
      [(⟨"F", true, some "F", false⟩, .base 0)] [] .nilp [] rfl rfl).1 rfl
    rw [h]
    simp [loadFields, followLeafVal, zeroVal, zeroFields]
  · have h := (claim_C9_ptr_struct_not_recursed Lstr [("A_IN", "z")] "A_"
      "In" "IN" false [(⟨"F", true, some "F", false⟩, .base 0)] [] .nilp []
      rfl rfl).2 "z" rfl
    rw [h]
    simp [loadFields, followLeafVal, zeroVal, zeroFields]

/-- Two scanned keys under prefix `Q` collide after key coercion, so the
successfully bound map holds one element for two scanned keys — refuting
C10's "exactly one element per … scanned key" (the slice half and the
atomicity claims survive; see the amended theorem). -/
theorem claim_C10_counterexample :
    (varsPrefixed [("QA", "x"), ("QB", "y")] "Q").length = 2 ∧
    parseAndSetMap Lnorm [("QA", "x"), ("QB", "y")] "Q" (.base 0) (.base 1)
        (.mapv [(.prim "z", .prim "z")]) =
      (.mapv [(.prim "1", .prim "y")], none) := by
  constructor
  · rfl
  · simp [parseAndSetMap, varsPrefixed, goHasPfx, mapLoop, mapCoerce,
      strDrop, parseAndSetValue, textUnmarshaler, tuMethodSet, lookupParser,
      Lnorm, tyBeq, stripPtr, followLeafVal, rebuildPtrs, zeroVal, strParser,
      lenParser, insertEntry, valBeq, kindOf]
    decide

/-- Case equation: `parseAndSetSlice` on a tokenization failure. -/
theorem parseAndSetSlice_tok_error (l : Loader) (t : Ty) (v : Val)
    (s : String) (e : Err) (h : tokenizeSliceString s = .error e) :
    parseAndSetSlice l t v s = (v, some e) := by
  rw [parseAndSetSlice, h]

/-- Case equation: `parseAndSetSlice` on an element failure. -/
theorem parseAndSetSlice_elem_error (l : Loader) (t : Ty) (v : Val)
    (s : String) (fields : List String) (e : Err)
    (h1 : tokenizeSliceString s = .ok fields)
    (h2 : setSliceElems l (elemTy t) 0 (fields.map unescapeSliceField) =
      .error e) :
    parseAndSetSlice l t v s = (v, some e) := by
  rw [parseAndSetSlice, h1]
  simp only
  rw [h2]

/-- Case equation: `parseAndSetSlice` on success. -/
theorem parseAndSetSlice_ok (l : Loader) (t : Ty) (v : Val) (s : String)
    (fields : List String) (ws : List Val)
    (h1 : tokenizeSliceString s = .ok fields)
    (h2 : setSliceElems l (elemTy t) 0 (fields.map unescapeSliceField) =
      .ok ws) :
    parseAndSetSlice l t v s = (.slv ws, none) := by
  rw [parseAndSetSlice, h1]
  simp only
  rw [h2]

/-- A successful element loop produces exactly one slice element per
unescaped field. -/
theorem setSliceElems_length (l : Loader) (et : Ty) :
    ∀ (fs : List String) (i : Nat) (vs : List Val),
      setSliceElems l et i fs = .ok vs → vs.length = fs.length := by
  intro fs
  induction fs with
  | nil =>
    intro i vs h
    simp [setSliceElems] at h
    simp [← h]
  | cons f rest ih =>
    intro i vs h
    rw [setSliceElems] at h
    rcases hp : parseAndSetValue l et (zeroVal et) f with ⟨v', e?⟩
    rw [hp] at h
    rcases e? with _ | e
    · simp only at h
      rcases hr : setSliceElems l et (i + 1) rest with _ | ws
      · rw [hr] at h
        cases h
      · rw [hr] at h
        cases h
        simpa using ih (i + 1) ws hr
    · cases h

/-- On any failure the map loop hands back the original destination value
untouched. -/
theorem mapLoop_error_keeps (l : Loader) (pfx : String) (kt vt : Ty)
    (orig : Val) :
    ∀ (vars : List (String × String)) (acc : List (Val × Val)),
      (mapLoop l pfx kt vt orig vars acc).2.isSome →
      (mapLoop l pfx kt vt orig vars acc).1 = orig := by
  intro vars
  induction vars with
  | nil =>
    intro acc h
    simp [mapLoop] at h
  | cons p rest ih =>
    intro acc h
    rw [mapLoop] at h ⊢
    rcases hck : mapCoerce l kt (strDrop p.1 pfx.length) with ⟨kleaf, ke⟩
    rw [hck] at h
    cases ke with
    | some e => rfl
    | none =>
      rcases hcv : mapCoerce l vt p.2 with ⟨vleaf, ve⟩
      rw [hcv] at h
      cases ve with
      | some e => rfl
      | none => exact ih _ h

/-- `SetMapIndex` grows the entry list by at most one. -/
theorem insertEntry_length (k w : Val) :
    ∀ acc : List (Val × Val),
      (insertEntry k w acc).length ≤ acc.length + 1 := by
  intro acc
  induction acc with
  | nil => simp [insertEntry]
  | cons e rest ih =>
    rcases e with ⟨k', v'⟩
    by_cases h : valBeq k' k
    · simp [insertEntry, h]
    · simp [insertEntry, h]
      omega

/-- A successful map loop always hands back a freshly built map value. -/
theorem mapLoop_ok_shape (l : Loader) (pfx : String) (kt vt : Ty)
    (orig : Val) :
    ∀ (vars : List (String × String)) (acc : List (Val × Val)) (mv : Val),
      mapLoop l pfx kt vt orig vars acc = (mv, none) →
      ∃ es : List (Val × Val), mv = .mapv es := by
  intro vars
  induction vars with
  | nil =>
    intro acc mv h
    rw [mapLoop] at h
    cases h
    exact ⟨acc, rfl⟩
  | cons p rest ih =>
    intro acc mv h
    rw [mapLoop] at h
    rcases hck : mapCoerce l kt (strDrop p.1 pfx.length) with ⟨kleaf, ke⟩
    rw [hck] at h
    rcases ke with _ | e
    · simp only at h
      rcases hcv : mapCoerce l vt p.2 with ⟨vleaf, ve⟩
      rw [hcv] at h
      rcases ve with _ | e
      · exact ih _ mv h
      · cases h
    · cases h

/-- A successful map loop yields at most one entry per scanned key (on top
of what was accumulated). -/
theorem mapLoop_ok_length (l : Loader) (pfx : String) (kt vt : Ty)
    (orig : Val) :
    ∀ (vars : List (String × String)) (acc : List (Val × Val))
      (es : List (Val × Val)),
      mapLoop l pfx kt vt orig vars acc = (.mapv es, none) →
      es.length ≤ acc.length + vars.length := by
  intro vars
  induction vars with
  | nil =>
    intro acc es h
    rw [mapLoop] at h
    cases h
    simp
  | cons p rest ih =>
    intro acc es h
    rw [mapLoop] at h
    rcases hck : mapCoerce l kt (strDrop p.1 pfx.length) with ⟨kleaf, ke⟩
    rw [hck] at h
    rcases ke with _ | e
    · simp only at h
      rcases hcv : mapCoerce l vt p.2 with ⟨vleaf, ve⟩
      rw [hcv] at h
      rcases ve with _ | e
      · have := ih _ es h
        have hlen := insertEntry_length (rebuildPtrs kt kleaf)
          (rebuildPtrs vt vleaf) acc
        simp only [List.length_cons]
        omega
      · cases h
    · cases h

/-- C10 as amended: slice and map binding are atomic — on any tokenize,
element, key, or value coercion error the destination collection is left
unchanged, and on success it is replaced wholesale with exactly one element
per tokenized field (slices) and *at most* one element per scanned key
(maps; exactly one only when the coerced keys are pairwise distinct — see
the counterexample). -/
theorem claim_C10_amended :
    (∀ (l : Loader) (t : Ty) (v : Val) (s : String),
      (parseAndSetSlice l t v s).2.isSome → (parseAndSetSlice l t v s).1 = v) ∧
    (∀ (l : Loader) (t : Ty) (v : Val) (s : String)
       (fields : List String), tokenizeSliceString s = .ok fields →
      (parseAndSetSlice l t v s).2 = none →
      ∃ ws : List Val, (parseAndSetSlice l t v s).1 = .slv ws ∧
        ws.length = fields.length) ∧
    (∀ (l : Loader) (env : List (String × String)) (n : String)
       (kt vt : Ty) (v : Val),
      (parseAndSetMap l env n kt vt v).2.isSome →
      (parseAndSetMap l env n kt vt v).1 = v) ∧
    (∀ (l : Loader) (env : List (String × String)) (n : String)
       (kt vt : Ty) (v : Val),
      (parseAndSetMap l env n kt vt v).2 = none →
      ∃ es : List (Val × Val), (parseAndSetMap l env n kt vt v).1 = .mapv es ∧
        es.length ≤ (varsPrefixed env n).length) := by
  refine ⟨?_, ?_, ?_, ?_⟩
  · intro l t v s h
    rcases htok : tokenizeSliceString s with e | fields
    · rw [parseAndSetSlice_tok_error l t v s e htok]
    · rcases hse : setSliceElems l (elemTy t) 0
          (fields.map unescapeSliceField) with e | ws
      · rw [parseAndSetSlice_elem_error l t v s fields e htok hse]
      · rw [parseAndSetSlice_ok l t v s fields ws htok hse] at h
        simp at h
  · intro l t v s fields htok h
    rcases hse : setSliceElems l (elemTy t) 0
        (fields.map unescapeSliceField) with e | ws
    · rw [parseAndSetSlice_elem_error l t v s fields e htok hse] at h
      simp at h
    · rw [parseAndSetSlice_ok l t v s fields ws htok hse]
      refine ⟨ws, rfl, ?_⟩
      simpa using setSliceElems_length l (elemTy t) _ 0 ws hse
  · intro l env n kt vt v h
    exact mapLoop_error_keeps l n kt vt v (varsPrefixed env n) [] h
  · intro l env n kt vt v h
    rw [parseAndSetMap] at h ⊢
    rcases hm : mapLoop l n kt vt v (varsPrefixed env n) [] with ⟨mv, e?⟩
    rw [hm] at h
    rcases e? with _ | e
    · rcases mapLoop_ok_shape l n kt vt v (varsPrefixed env n) [] mv hm
        with ⟨es, rfl⟩
      refine ⟨es, rfl, ?_⟩
      simpa using mapLoop_ok_length l n kt vt v (varsPrefixed env n) [] es hm
    · cases h

/-- Concrete instantiation of all four conjuncts of `claim_C10_amended`: a
slice kept intact under a tokenize failure, a slice rebuilt with one element
per field, a map kept intact under a value-coercion failure, and a map
rebuilt within the scanned-key bound. -/
theorem claim_C10_amended_witness :
    (parseAndSetSlice Lstr (.slice (.base 0)) (.slv [.prim "keep"])
        "\"x").1 = .slv [.prim "keep"] ∧
    (∃ ws : List Val,
      (parseAndSetSlice Lstr (.slice (.base 0)) (.slv []) "a,b").1 =
        .slv ws ∧ ws.length = 2) ∧
    (parseAndSetMap Lfail [("KZ", "v")] "K" (.base 0) (.base 2)
        (.mapv [(.prim "k", .prim "w")])).1 =
      .mapv [(.prim "k", .prim "w")] ∧
    (∃ es : List (Val × Val),
      (parseAndSetMap Lstr [("KA", "v")] "K" (.base 0) (.base 0)
          (.mapv [])).1 = .mapv es ∧
        es.length ≤ (varsPrefixed [("KA", "v")] "K").length) := by
  have hse : setSliceElems Lstr (.base 0) 0 ["a", "b"] =
      .ok [.prim "a", .prim "b"] := by
    simp [setSliceElems, parseAndSetValue, textUnmarshaler, tuMethodSet,
      lookupParser, Lstr, tyBeq, zeroVal, strParser]
  have htt := parseAndSetSlice_tok_error Lstr (.slice (.base 0))
    (.slv [.prim "keep"]) "\"x" .unbalancedQuotes rfl
  refine ⟨?_, ?_, ?_, ?_⟩
  · exact claim_C10_amended.1 Lstr (.slice (.base 0)) (.slv [.prim "keep"])
      "\"x" (by rw [htt]; rfl)
  · have h := claim_C10_amended.2.1 Lstr (.slice (.base 0)) (.slv [])
      "a,b" ["a", "b"] rfl
      (by rw [parseAndSetSlice_ok Lstr (.slice (.base 0)) (.slv []) "a,b"
        ["a", "b"] [.prim "a", .prim "b"] rfl (by simpa [elemTy] using hse)])
    simpa using h
  · exact claim_C10_amended.2.2.1 Lfail [("KZ", "v")] "K" (.base 0)
      (.base 2) (.mapv [(.prim "k", .prim "w")])
      (by simp [parseAndSetMap, varsPrefixed, goHasPfx, mapLoop,
        mapCoerce, strDrop, parseAndSetValue, textUnmarshaler, tuMethodSet,
        lookupParser, Lfail, tyBeq, stripPtr, followLeafVal, zeroVal,
        strParser, failParser, kindOf])
  · exact claim_C10_amended.2.2.2 Lstr [("KA", "v")] "K" (.base 0)
      (.base 0) (.mapv [])
      (by simp [parseAndSetMap, varsPrefixed, goHasPfx, mapLoop,
        mapCoerce, strDrop, parseAndSetValue, textUnmarshaler, tuMethodSet,
        lookupParser, Lstr, tyBeq, stripPtr, followLeafVal, zeroVal,
        strParser, insertEntry, kindOf])

end EnvModel
